import Mathlib

/-!
Verification of the q-monitor-cli status-aggregation pipeline (monitor.go).

The Go source is shallowly embedded below:

* `parseLine` models `encoding/json.Unmarshal` into `map[string]interface{}`
  restricted to flat JSON objects whose values are strings, integer-valued
  numbers, booleans or null (the shapes the monitored log stream produces);
  JSON numbers are represented as `Int` and rendered like Go renders an
  integral `float64` under the `%.0f` verb.
* `extractLogMessages` models `extractLogMessages` from monitor.go.  Go
  iterates the `messageTypes` map and each entry map in an unspecified
  (randomised) order, so the embedding takes the key enumeration order and
  the field enumeration order as explicit parameters; an admissible order is
  any permutation of the underlying key/field collection.
* `parseCPUUsage` / `parseMemoryUsage` model the stat parsers; Go's
  out-of-range slice indexing (a panic) is modelled by `Option` with `none`
  on the panic branch.
* `splitLines` models `strings.Split(s, "\n")` and `goFields` models
  `strings.Fields` (for the whitespace characters in Latin-1 that
  `unicode.IsSpace` accepts).
* `nodeTaskWrites` models the sequence of `SetText` invocations performed by
  one node's per-cycle task in `main`, and `mainLogReader` / `readLogsCmd`
  model the log-reader selection and the reader command strings.
-/

/-- A JSON value as produced by decoding one log line.  Numbers are kept as
integers: every number in the monitored log stream is integral, and Go renders
such a `float64` with `%.0f`, which prints exactly the integer digits. -/
inductive JsonVal where
  | str (s : String)
  | num (n : Int)
  | bool (b : Bool)
  | null
deriving DecidableEq

/-- One decoded log record: field name to value, unique field names,
models Go's `map[string]interface{}` (iteration order abstracted elsewhere). -/
def LogEntry : Type := List (String × JsonVal)

instance : DecidableEq LogEntry := by
  unfold LogEntry
  infer_instance

def quoteChar : Char := Char.ofNat 34

def backslashChar : Char := Char.ofNat 92

def lbraceChar : Char := Char.ofNat 123

def rbraceChar : Char := Char.ofNat 125

/-- JSON insignificant whitespace characters. -/
def isJsonWs (c : Char) : Bool :=
  c = ' ' || c = '\t' || c = '\n' || c = '\r'

/-- Drop leading JSON whitespace. -/
def skipWs : List Char → List Char
  | [] => []
  | c :: cs => if isJsonWs c then skipWs cs else c :: cs

/-- Parse the body of a JSON string after its opening quote, returning the
decoded characters and the input remaining after the closing quote. -/
def parseStringBody : List Char → Option (List Char × List Char)
  | [] => none
  | c :: cs =>
    if c = quoteChar then some ([], cs)
    else if c = backslashChar then
      match cs with
      | [] => none
      | e :: cs2 =>
        match parseStringBody cs2 with
        | none => none
        | some (s, rest) =>
          if e = quoteChar then some (quoteChar :: s, rest)
          else if e = backslashChar then some (backslashChar :: s, rest)
          else if e = '/' then some ('/' :: s, rest)
          else if e = 'n' then some ('\n' :: s, rest)
          else if e = 't' then some ('\t' :: s, rest)
          else if e = 'r' then some ('\r' :: s, rest)
          else none
    else
      match parseStringBody cs with
      | none => none
      | some (s, rest) => some (c :: s, rest)

/-- Split off a maximal run of decimal digits. -/
def takeDigits : List Char → List Char × List Char
  | [] => ([], [])
  | c :: cs =>
    if c.isDigit then
      let p := takeDigits cs
      (c :: p.1, p.2)
    else ([], c :: cs)

def digitsToNat (ds : List Char) : Nat :=
  ds.foldl (fun acc c => acc * 10 + (c.toNat - 48)) 0

/-- Reject a fractional or exponent continuation (the embedding covers only
integral JSON numbers), otherwise return the parsed integer. -/
def numTail (n : Int) (rest : List Char) : Option (Int × List Char) :=
  match rest with
  | [] => some (n, [])
  | c :: _ => if c = '.' || c = 'e' || c = 'E' then none else some (n, rest)

/-- Parse an integral JSON number. -/
def parseNumber (cs : List Char) : Option (Int × List Char) :=
  match cs with
  | [] => none
  | c :: rest =>
    if c = '-' then
      let p := takeDigits rest
      if p.1.isEmpty then none else numTail (-(digitsToNat p.1 : Int)) p.2
    else
      let p := takeDigits cs
      if p.1.isEmpty then none else numTail ((digitsToNat p.1 : Int)) p.2

/-- Parse one scalar JSON value (string, number, boolean or null). -/
def parseScalar (cs : List Char) : Option (JsonVal × List Char) :=
  match cs with
  | [] => none
  | c :: rest =>
    if c = quoteChar then
      match parseStringBody rest with
      | none => none
      | some (s, r) => some (JsonVal.str (String.mk s), r)
    else if c = 't' then
      if rest.take 3 = ['r', 'u', 'e'] then some (JsonVal.bool true, rest.drop 3) else none
    else if c = 'f' then
      if rest.take 4 = ['a', 'l', 's', 'e'] then some (JsonVal.bool false, rest.drop 4) else none
    else if c = 'n' then
      if rest.take 3 = ['u', 'l', 'l'] then some (JsonVal.null, rest.drop 3) else none
    else
      match parseNumber (c :: rest) with
      | none => none
      | some (n, r) => some (JsonVal.num n, r)

/-- Insert a field, overwriting an existing field of the same name: models
Go's JSON decoding where a duplicated object key keeps the last value. -/
def insertField (e : List (String × JsonVal)) (k : String) (v : JsonVal) :
    List (String × JsonVal) :=
  match e with
  | [] => [(k, v)]
  | (k0, v0) :: rest => if k0 = k then (k, v) :: rest else (k0, v0) :: insertField rest k v

/-- Parse the members of a JSON object, positioned just after the opening
brace or after a comma; `fuel` bounds the number of members. -/
def parseMembers (fuel : Nat) (e : List (String × JsonVal)) (cs : List Char) :
    Option (List (String × JsonVal) × List Char) :=
  match fuel with
  | 0 => none
  | fuel + 1 =>
    match skipWs cs with
    | [] => none
    | c :: rest =>
      if c = quoteChar then
        match parseStringBody rest with
        | none => none
        | some (kcs, cs2) =>
          match skipWs cs2 with
          | [] => none
          | c2 :: cs3 =>
            if c2 = ':' then
              match parseScalar (skipWs cs3) with
              | none => none
              | some (v, cs4) =>
                let e2 := insertField e (String.mk kcs) v
                match skipWs cs4 with
                | [] => none
                | c5 :: cs6 =>
                  if c5 = ',' then parseMembers fuel e2 cs6
                  else if c5 = rbraceChar then some (e2, cs6)
                  else none
            else none
      else none

/-- Model of `json.Unmarshal([]byte(line), &logEntry)` for a
`map[string]interface{}` target: the whole line must be one JSON object
(with flat scalar values in this embedding); anything else is a decode
error, reported as `none`. -/
def parseLine (line : String) : Option LogEntry :=
  match skipWs line.data with
  | [] => none
  | c :: rest =>
    if c = lbraceChar then
      match skipWs rest with
      | [] => none
      | c2 :: cs2 =>
        if c2 = rbraceChar then
          if (skipWs cs2).isEmpty then some ([] : List (String × JsonVal)) else none
        else
          match parseMembers (rest.length + 1) [] rest with
          | none => none
          | some (e, restEnd) => if (skipWs restEnd).isEmpty then some e else none
    else none

/-- Model of `logEntry["msg"].(string)`: the value of the `msg` field when it
exists and is a string. -/
def getMsg (e : LogEntry) : Option String :=
  match List.lookup "msg" e with
  | some (JsonVal.str s) => some s
  | _ => none

/-- The fixed watched message keys (the keys of `messageTypes` in
`extractLogMessages`). -/
def watchedKeys : List String :=
  ["connecting to bootstrap", "broadcasting self-test info", "peers in store"]

/-- One iteration of the line loop of `extractLogMessages`: decode the line,
skip it if undecodable or without a string `msg` field, otherwise overwrite
the stored entry for its key when the key is watched. -/
def processLine (store : String → Option LogEntry) (line : String) :
    String → Option LogEntry :=
  match parseLine line with
  | none => store
  | some entry =>
    match getMsg entry with
    | none => store
    | some msg =>
      if msg ∈ watchedKeys then
        fun k => if k = msg then some entry else store k
      else store

/-- The `messageTypes` store after the line loop, starting from the all-`nil`
initial map. -/
def storeFromLines (lines : List String) : String → Option LogEntry :=
  lines.foldl processLine (fun _ => none)

/-- The noise fields deleted before rendering. -/
def noiseFields : List String := ["level", "ts", "caller", "msg"]

/-- Model of the four `delete(logEntry, ...)` calls. -/
def stripNoise (e : LogEntry) : LogEntry :=
  e.filter (fun p => !(noiseFields.contains p.1))

/-- Render one field value the way the Go switch does: `%.0f` for numbers
(integral here), `%v` otherwise. -/
def renderVal : JsonVal → String
  | JsonVal.str s => s
  | JsonVal.num n => toString n
  | JsonVal.bool b => if b then "true" else "false"
  | JsonVal.null => "<nil>"

/-- Render the retained fields of one entry, in the given enumeration order:
the inner `for key, value := range logEntry` loop. -/
def renderFields (fieldList : List (String × JsonVal)) : String :=
  fieldList.foldl
    (fun acc p => if p.1 = "msg" then acc else acc ++ "; " ++ p.1 ++ ": " ++ renderVal p.2)
    ""

/-- A field enumeration order for entry maps: any function reordering an
association list, modelling Go's randomised map iteration. -/
def FieldOrder : Type := List (String × JsonVal) → List (String × JsonVal)

/-- Render the output line for one watched key and its stored entry. -/
def renderLine (fp : FieldOrder) (key : String) (e : LogEntry) : String :=
  "\x7b msg: " ++ key ++ renderFields (fp (stripNoise e)) ++ " \x7d\n"

/-- The per-key output lines of `extractLogMessages`, for a given enumeration
order `o` of the `messageTypes` keys: keys with a `nil` entry are skipped,
every other key is rendered. -/
def extractLines (o : List String) (fp : FieldOrder) (lines : List String) :
    List String :=
  o.filterMap (fun k => (storeFromLines lines k).map (fun e => renderLine fp k e))

/-- The keys that receive an output line under enumeration order `o`. -/
def renderedKeys (o : List String) (lines : List String) : List String :=
  o.filter (fun k => (storeFromLines lines k).isSome)

def extractFromLines (o : List String) (fp : FieldOrder) (lines : List String) :
    String :=
  String.join (extractLines o fp lines)

/-- Model of `strings.Split(s, "\n")`. -/
def splitLinesAux : List Char → List Char → List String
  | [], acc => [String.mk acc.reverse]
  | c :: cs, acc =>
    if c = '\n' then String.mk acc.reverse :: splitLinesAux cs []
    else splitLinesAux cs (c :: acc)

def splitLines (s : String) : List String := splitLinesAux s.data []

/-- Model of `extractLogMessages` from monitor.go, parameterised by the key
and field enumeration orders of the two Go map-range loops. -/
def extractLogMessages (o : List String) (fp : FieldOrder) (logs : String) : String :=
  extractFromLines o fp (splitLines logs)

/-- Whether the line decodes to a record whose `msg` field is `key`:
the condition under which the line loop stores the line under `key`
(for a watched `key`). -/
def lineMatches (key line : String) : Bool :=
  match parseLine line with
  | some e => decide (getMsg e = some key)
  | none => false

/-- Whether the line loop skips the line: undecodable, or no string `msg`. -/
def lineSkipped (line : String) : Bool :=
  match parseLine line with
  | none => true
  | some e => (getMsg e).isNone

def matchingLines (key : String) (lines : List String) : List String :=
  lines.filter (fun l => lineMatches key l)

/-- The whitespace class of Go's `unicode.IsSpace` restricted to Latin-1,
as used by `strings.Fields`. -/
def isGoSpace (c : Char) : Bool :=
  c = ' ' || c = '\t' || c = '\n' || c = Char.ofNat 11 || c = Char.ofNat 12 ||
    c = '\r' || c = Char.ofNat 133 || c = Char.ofNat 160

/-- Model of `strings.Fields`: maximal runs of non-whitespace characters. -/
def splitFieldsAux : List Char → List Char → List String
  | [], acc => if acc.isEmpty then [] else [String.mk acc.reverse]
  | c :: cs, acc =>
    if isGoSpace c then
      if acc.isEmpty then splitFieldsAux cs []
      else String.mk acc.reverse :: splitFieldsAux cs []
    else splitFieldsAux cs (c :: acc)

def goFields (s : String) : List String := splitFieldsAux s.data []

/-- Model of `parseCPUUsage`: Go indexes `parts[1]` and `parts[3]` without a
bound check, which panics on a short line; the panic branch is `none`. -/
def parseCPUUsage (cpuStat : String) : Option String :=
  match (goFields cpuStat)[1]?, (goFields cpuStat)[3]? with
  | some p1, some p3 =>
    some ("User Space: " ++ p1 ++ "%; System Space: " ++ p3 ++ "%")
  | _, _ => none

/-- Model of `parseMemoryUsage`: Go indexes `lines[1]`, `memParts[1]` and
`memParts[2]` without a bound check; the panic branch is `none`. -/
def parseMemoryUsage (memStat : String) : Option String :=
  match (splitLines memStat)[1]? with
  | none => none
  | some l2 =>
    match (goFields l2)[1]?, (goFields l2)[2]? with
    | some total, some used =>
      some ("Total Memory: " ++ total ++ " MB; Used Memory: " ++ used ++ " MB")
    | _, _ => none

/-- A node record from the configuration file. -/
structure Node where
  ip : String
  username : String
  password : String
deriving DecidableEq

/-- The configuration: a list of nodes. -/
structure Config where
  nodes : List Node

/-- The two log-reader variants defined in monitor.go. -/
inductive LogReader where
  | service (serviceName : String)
  | tmux (paneName : String)
deriving DecidableEq

/-- The remote command built by each reader's `ReadLogs`. -/
def readLogsCmd : LogReader → String
  | LogReader.service name =>
    "journalctl -u " ++ name ++
      ".service -n 50 --no-hostname -o cat | grep -E \x27\"msg\":\"(connecting to bootstrap|broadcasting self-test info|peers in store)\"\x27"
  | LogReader.tmux pane =>
    "tmux capture-pane -t " ++ pane ++
      " -pS -100 | grep -E \x27\"msg\":\"(connecting to bootstrap|broadcasting self-test info|peers in store)\"\x27 | tail -n 200"

/-- The log reader `main` binds for node `i` in poll cycle `cycle`: the source
hardcodes `ServiceLogReader{ServiceName: "ceremonyclient"}` in the goroutine
body, independent of the configuration. -/
def mainLogReader (cfg : Config) (cycle : Nat) (i : Nat) : LogReader :=
  LogReader.service "ceremonyclient"

/-- One `SetText` invocation on the display, either called directly from the
worker goroutine or queued through `app.QueueUpdateDraw`. -/
inductive DisplayWrite where
  | direct (slot : Nat) (text : String)
  | queued (slot : Nat) (text : String)
deriving DecidableEq

/-- The error text `main` renders for a failed node. -/
def errText (node : Node) (err : String) : String :=
  "Error fetching status for node " ++ node.ip ++ ": " ++ err

/-- The sequence of `SetText` invocations one node's per-cycle task performs
in `main`, given the result of `getNodeStatus`: both branches write the text
directly and then once more through `QueueUpdateDraw`. -/
def nodeTaskWrites (i : Nat) (node : Node) (res : Except String String) :
    List DisplayWrite :=
  match res with
  | Except.error err =>
    [DisplayWrite.direct i (errText node err), DisplayWrite.queued i (errText node err)]
  | Except.ok output =>
    [DisplayWrite.direct i output, DisplayWrite.queued i output]

/-- First line of the end-to-end scenario sample. -/
def sampleLine1 : String :=
  "\x7b\"msg\":\"peers in store\",\"level\":\"info\",\"ts\":\"x\",\"caller\":\"y\",\"count\":12\x7d"

/-- Second (later) line of the end-to-end scenario sample. -/
def sampleLine2 : String :=
  "\x7b\"msg\":\"peers in store\",\"count\":15\x7d"

/-- The end-to-end scenario sample: the two lines in stream order. -/
def sampleC1 : String := sampleLine1 ++ "\n" ++ sampleLine2

/-- A sample in which two distinct watched keys receive entries. -/
def sampleTwoKeys : String :=
  "\x7b\"msg\":\"connecting to bootstrap\",\"bootstrap_peer\":\"abc\"\x7d" ++ "\n" ++
    "\x7b\"msg\":\"peers in store\",\"count\":7\x7d"

/-- An admissible key enumeration order other than `watchedKeys` itself. -/
def keyOrderAlt : List String :=
  ["peers in store", "connecting to bootstrap", "broadcasting self-test info"]

/-- A realistic `top -b -n 1 | grep "Cpu(s)"` output line. -/
def cpuSampleLine : String :=
  "%Cpu(s):  5.9 us,  2.4 sy,  0.0 ni, 91.3 id,  0.2 wa,  0.0 hi,  0.2 si,  0.0 st"

/-- A realistic `free -m` output. -/
def memSample : String :=
  "              total        used        free\nMem:           7951        1234        5678\nSwap:          2047           0        2047"

/-! ## Helper lemmas about the line loop -/

theorem processLine_of_match (s : String → Option LogEntry) (x key : String)
    (hk : key ∈ watchedKeys) (hx : lineMatches key x = true) :
    processLine s x key = parseLine x := by
  unfold lineMatches at hx
  cases hp : parseLine x with
  | none => rw [hp] at hx; simp at hx
  | some e =>
    rw [hp] at hx
    simp only [decide_eq_true_eq] at hx
    simp [processLine, hp, hx, hk]

theorem processLine_of_not_match (s : String → Option LogEntry) (x key : String)
    (hx : lineMatches key x = false) :
    processLine s x key = s key := by
  unfold lineMatches at hx
  cases hp : parseLine x with
  | none => simp [processLine, hp]
  | some e =>
    rw [hp] at hx
    simp only [decide_eq_false_iff_not] at hx
    cases hm : getMsg e with
    | none => simp [processLine, hp, hm]
    | some m =>
      rw [hm] at hx
      have hne : key ≠ m := fun h => hx (by rw [h])
      by_cases hw : m ∈ watchedKeys
      · simp [processLine, hp, hm, hw, hne]
      · simp [processLine, hp, hm, hw]

theorem processLine_of_skipped (s : String → Option LogEntry) (x : String)
    (hx : lineSkipped x = true) :
    processLine s x = s := by
  unfold lineSkipped at hx
  cases hp : parseLine x with
  | none => simp [processLine, hp]
  | some e =>
    simp only [hp] at hx
    cases hm : getMsg e with
    | none => simp [processLine, hp, hm]
    | some m => rw [hm] at hx; simp [Option.isNone] at hx

theorem storeAux_eq (key : String) (hk : key ∈ watchedKeys) (lines : List String) :
    ∀ s : String → Option LogEntry,
      List.foldl processLine s lines key =
        match (matchingLines key lines).getLast? with
        | some l => parseLine l
        | none => s key := by
  induction lines using List.reverseRecOn with
  | nil => intro s; rfl
  | append_singleton l x ih =>
    intro s
    rw [List.foldl_append]
    simp only [List.foldl_cons, List.foldl_nil]
    unfold matchingLines
    rw [List.filter_append]
    by_cases hx : lineMatches key x = true
    · simp only [List.filter_cons, List.filter_nil, hx, if_true]
      rw [List.getLast?_concat]
      exact processLine_of_match _ _ _ hk hx
    · have hx2 : lineMatches key x = false := by
        cases h : lineMatches key x
        · rfl
        · exact absurd h hx
      simp only [List.filter_cons, List.filter_nil, hx2, Bool.false_eq_true, if_false,
        List.append_nil]
      rw [processLine_of_not_match _ _ _ hx2]
      exact ih s

theorem store_none_of_no_match (lines : List String) (key : String)
    (h : ∀ l ∈ lines, lineMatches key l = false) :
    ∀ s : String → Option LogEntry, List.foldl processLine s lines key = s key := by
  induction lines with
  | nil => intro s; rfl
  | cons x xs ih =>
    intro s
    simp only [List.foldl_cons]
    rw [ih (fun l hl => h l (List.mem_cons_of_mem x hl)) _]
    exact processLine_of_not_match _ _ _ (h x (List.mem_cons_self x xs))

theorem foldl_filter_skipped (lines : List String) :
    ∀ s : String → Option LogEntry,
      List.foldl processLine s (lines.filter (fun l => !(lineSkipped l))) =
        List.foldl processLine s lines := by
  induction lines with
  | nil => intro s; rfl
  | cons x xs ih =>
    intro s
    by_cases hx : lineSkipped x = true
    · simp only [List.filter_cons, hx, Bool.not_true, Bool.false_eq_true, if_false,
        List.foldl_cons]
      rw [processLine_of_skipped s x hx]
      exact ih s
    · have hx2 : lineSkipped x = false := by
        cases h : lineSkipped x
        · rfl
        · exact absurd h hx
      simp only [List.filter_cons, hx2, Bool.not_false, if_true, List.foldl_cons]
      exact ih (processLine s x)

/-! ## Claim theorems -/

/-- C1: applied to the sample holding the two `peers in store` lines (count 12
first, count 15 later), `extractLogMessages` returns exactly the single line
for the later record, with level, ts, caller and msg stripped and the count
rendered without decimal places, for every admissible enumeration order of
the key map and of the entry map. -/
theorem extract_end_to_end (o : List String) (fp : FieldOrder)
    (ho : List.Perm o watchedKeys) (hf : ∀ l, List.Perm (fp l) l) :
    extractLogMessages o fp sampleC1 = "\x7b msg: peers in store; count: 15 \x7d\n" := by
  have hfp : fp [("count", JsonVal.num 15)] = [("count", JsonVal.num 15)] :=
    List.perm_singleton.mp (hf _)
  have hw : extractLines watchedKeys fp (splitLines sampleC1) =
      [renderLine fp "peers in store"
        [("msg", JsonVal.str "peers in store"), ("count", JsonVal.num 15)]] := rfl
  have hrl : renderLine fp "peers in store"
      [("msg", JsonVal.str "peers in store"), ("count", JsonVal.num 15)] =
      "\x7b msg: peers in store; count: 15 \x7d\n" := by
    show "\x7b msg: " ++ "peers in store" ++ renderFields (fp [("count", JsonVal.num 15)]) ++
        " \x7d\n" = _
    rw [hfp]
    rfl
  have hperm : List.Perm (extractLines o fp (splitLines sampleC1))
      (extractLines watchedKeys fp (splitLines sampleC1)) :=
    List.Perm.filterMap _ ho
  rw [hw, hrl] at hperm
  have heq := List.perm_singleton.mp hperm
  unfold extractLogMessages extractFromLines
  rw [heq]
  rfl

theorem extract_end_to_end_witness :
    extractLogMessages watchedKeys (fun l => l) sampleC1 =
      "\x7b msg: peers in store; count: 15 \x7d\n" :=
  extract_end_to_end watchedKeys (fun l => l) (List.Perm.refl _) (fun l => List.Perm.refl l)

/-- C2: for any sample and watched key with at least two matching lines, the
stored entry is the decode of the last matching line in stream order, and the
rendered line for that entry appears in the extractor's output under any
admissible key enumeration order. -/
theorem latest_wins (key : String) (lines : List String) (o : List String) (fp : FieldOrder)
    (hk : key ∈ watchedKeys) (ho : List.Perm o watchedKeys)
    (h2 : 2 ≤ (matchingLines key lines).length) :
    ∃ last e, (matchingLines key lines).getLast? = some last ∧ parseLine last = some e ∧
      storeFromLines lines key = some e ∧ renderLine fp key e ∈ extractLines o fp lines := by
  have hne : matchingLines key lines ≠ [] := by
    intro h
    rw [h] at h2
    simp at h2
  obtain ⟨last, hlast⟩ : ∃ last, (matchingLines key lines).getLast? = some last := by
    cases h : (matchingLines key lines).getLast? with
    | none => exact absurd (List.getLast?_eq_none_iff.mp h) hne
    | some a => exact ⟨a, rfl⟩
  obtain ⟨l0, hl0⟩ := List.getLast?_eq_some_iff.mp hlast
  have hmem : last ∈ matchingLines key lines := by
    rw [hl0]
    exact List.mem_append_right _ (List.mem_singleton_self last)
  have hmatch : lineMatches key last = true := (List.mem_filter.mp hmem).2
  obtain ⟨e, he, hmsg⟩ : ∃ e, parseLine last = some e ∧ getMsg e = some key := by
    unfold lineMatches at hmatch
    cases hp : parseLine last with
    | none => rw [hp] at hmatch; simp at hmatch
    | some e =>
      rw [hp] at hmatch
      simp only [decide_eq_true_eq] at hmatch
      exact ⟨e, rfl, hmatch⟩
  have hstore : storeFromLines lines key = some e := by
    unfold storeFromLines
    rw [storeAux_eq key hk lines _, hlast]
    exact he
  refine ⟨last, e, hlast, he, hstore, ?_⟩
  have hko : key ∈ o := ho.mem_iff.mpr hk
  exact List.mem_filterMap.mpr ⟨key, hko, by rw [hstore]; rfl⟩

theorem latest_wins_witness :
    ∃ last e,
      (matchingLines "peers in store" (splitLines sampleC1)).getLast? = some last ∧
      parseLine last = some e ∧
      storeFromLines (splitLines sampleC1) "peers in store" = some e ∧
      renderLine (fun l => l) "peers in store" e ∈
        extractLines watchedKeys (fun l => l) (splitLines sampleC1) :=
  latest_wins "peers in store" (splitLines sampleC1) watchedKeys (fun l => l)
    (by decide) (List.Perm.refl _) (by decide)

/-- C3: evaluation of the per-node task's display writes at a concrete input.
The claim says `setText` is invoked exactly once per node per cycle, but the
task writes the same text twice: once directly and once through the queued
draw callback. -/
theorem setText_called_twice_at_input :
    nodeTaskWrites 0 ⟨"12.13.14.15", "user1", "password1"⟩ (Except.ok "report") =
      [DisplayWrite.direct 0 "report", DisplayWrite.queued 0 "report"] ∧
    (nodeTaskWrites 0 ⟨"12.13.14.15", "user1", "password1"⟩ (Except.ok "report")).length ≠ 1 ∧
    nodeTaskWrites 1 ⟨"16.17.18.19", "user2", "password2"⟩ (Except.error "failed to dial") =
      [DisplayWrite.direct 1 "Error fetching status for node 16.17.18.19: failed to dial",
       DisplayWrite.queued 1 "Error fetching status for node 16.17.18.19: failed to dial"] := by
  refine ⟨rfl, by decide, rfl⟩

/-- C4 counterexample: two admissible enumeration orders of the watched-key
map produce different output strings on the same sample, so the output is not
a function of the sample alone. -/
theorem extract_order_counterexample :
    List.Perm watchedKeys watchedKeys ∧ List.Perm keyOrderAlt watchedKeys ∧
    extractLogMessages watchedKeys (fun l => l) sampleTwoKeys ≠
      extractLogMessages keyOrderAlt (fun l => l) sampleTwoKeys :=
  ⟨List.Perm.refl _, by decide, by decide⟩

/-- C4 amended: for a fixed enumeration order the extractor is a pure
function of the sample, and any two admissible key enumeration orders yield
the same collection of per-key output lines, only possibly arranged in a
different order. -/
theorem extract_lines_perm_invariant (logs : String) (o1 o2 : List String) (fp : FieldOrder)
    (h1 : List.Perm o1 watchedKeys) (h2 : List.Perm o2 watchedKeys) :
    List.Perm (extractLines o1 fp (splitLines logs)) (extractLines o2 fp (splitLines logs)) :=
  List.Perm.filterMap _ (h1.trans h2.symm)

theorem extract_lines_perm_invariant_witness :
    List.Perm (extractLines watchedKeys (fun l => l) (splitLines sampleTwoKeys))
      (extractLines keyOrderAlt (fun l => l) (splitLines sampleTwoKeys)) :=
  extract_lines_perm_invariant sampleTwoKeys watchedKeys keyOrderAlt (fun l => l)
    (List.Perm.refl _) (by decide)

/-- C5: on any CPU-summary line with at least four whitespace-separated
tokens, the CPU parser succeeds and reports the 2nd token verbatim as the
user-space percentage and the 4th token verbatim as the system-space
percentage. -/
theorem parseCPUUsage_tokens (line : String) (h : 4 ≤ (goFields line).length) :
    ∃ p1 p3, (goFields line)[1]? = some p1 ∧ (goFields line)[3]? = some p3 ∧
      parseCPUUsage line = some ("User Space: " ++ p1 ++ "%; System Space: " ++ p3 ++ "%") := by
  have h1 : (goFields line)[1]? = some (goFields line)[1] :=
    List.getElem?_eq_getElem (by omega)
  have h3 : (goFields line)[3]? = some (goFields line)[3] :=
    List.getElem?_eq_getElem (by omega)
  refine ⟨_, _, h1, h3, ?_⟩
  unfold parseCPUUsage
  rw [h1, h3]

theorem parseCPUUsage_tokens_witness :
    ∃ p1 p3, (goFields cpuSampleLine)[1]? = some p1 ∧ (goFields cpuSampleLine)[3]? = some p3 ∧
      parseCPUUsage cpuSampleLine =
        some ("User Space: " ++ p1 ++ "%; System Space: " ++ p3 ++ "%") :=
  parseCPUUsage_tokens cpuSampleLine (by decide)

/-- C6: on any memory-summary text with at least three lines whose second
line has at least three whitespace-separated tokens, the memory parser
reports the second line's 2nd token as total and 3rd token as used memory in
MB. -/
theorem parseMemoryUsage_tokens (memStat l2 : String)
    (h1 : 3 ≤ (splitLines memStat).length)
    (hl2 : (splitLines memStat)[1]? = some l2)
    (h2 : 3 ≤ (goFields l2).length) :
    ∃ t u, (goFields l2)[1]? = some t ∧ (goFields l2)[2]? = some u ∧
      parseMemoryUsage memStat =
        some ("Total Memory: " ++ t ++ " MB; Used Memory: " ++ u ++ " MB") := by
  have ht : (goFields l2)[1]? = some (goFields l2)[1] :=
    List.getElem?_eq_getElem (by omega)
  have hu : (goFields l2)[2]? = some (goFields l2)[2] :=
    List.getElem?_eq_getElem (by omega)
  refine ⟨_, _, ht, hu, ?_⟩
  simp only [parseMemoryUsage, hl2]
  rw [ht, hu]

theorem parseMemoryUsage_tokens_witness :
    ∃ t u,
      (goFields "Mem:           7951        1234        5678")[1]? = some t ∧
      (goFields "Mem:           7951        1234        5678")[2]? = some u ∧
      parseMemoryUsage memSample =
        some ("Total Memory: " ++ t ++ " MB; Used Memory: " ++ u ++ " MB") :=
  parseMemoryUsage_tokens memSample "Mem:           7951        1234        5678"
    (by decide) (by decide) (by decide)

/-- C7: lines that do not decode as a JSON record with a string `msg` field
are skipped: removing them from the sample changes neither the stored entry
of any watched key nor the extractor's output. -/
theorem skipped_lines_no_effect (o : List String) (fp : FieldOrder) (logs : String) :
    storeFromLines ((splitLines logs).filter (fun l => !(lineSkipped l))) =
      storeFromLines (splitLines logs) ∧
    extractFromLines o fp ((splitLines logs).filter (fun l => !(lineSkipped l))) =
      extractLogMessages o fp logs := by
  have h : storeFromLines ((splitLines logs).filter (fun l => !(lineSkipped l))) =
      storeFromLines (splitLines logs) := by
    unfold storeFromLines
    exact foldl_filter_skipped _ _
  refine ⟨h, ?_⟩
  unfold extractLogMessages extractFromLines extractLines
  rw [h]

/-- C8: a watched key with no matching line in the sample has no stored
entry and receives no output line, under any key enumeration order; the
extractor is a pure function of the current sample, so nothing is carried
over from previous extractions. -/
theorem unmatched_key_omitted (key logs : String) (o : List String)
    (h : ((splitLines logs).all (fun l => !(lineMatches key l))) = true) :
    storeFromLines (splitLines logs) key = none ∧
      key ∉ renderedKeys o (splitLines logs) := by
  have h2 : ∀ l ∈ splitLines logs, lineMatches key l = false := by
    intro l hl
    have := List.all_eq_true.mp h l hl
    simpa using this
  have hs : storeFromLines (splitLines logs) key = none := by
    unfold storeFromLines
    rw [store_none_of_no_match _ _ h2 _]
  refine ⟨hs, ?_⟩
  intro hmem
  have hcond := (List.mem_filter.mp hmem).2
  rw [hs] at hcond
  simp at hcond

theorem unmatched_key_omitted_witness :
    storeFromLines (splitLines sampleC1) "connecting to bootstrap" = none ∧
      "connecting to bootstrap" ∉ renderedKeys watchedKeys (splitLines sampleC1) :=
  unmatched_key_omitted "connecting to bootstrap" sampleC1 watchedKeys (by decide)

/-- C9: the CPU parser is total on lines with at least four
whitespace-separated tokens, and on a shorter line the unguarded token
indexing fails: the error branch of the guarded indexing is reached. -/
theorem parseCPUUsage_totality (line : String) :
    (4 ≤ (goFields line).length → (parseCPUUsage line).isSome = true) ∧
    ((goFields line).length < 4 → parseCPUUsage line = none) := by
  constructor
  · intro h
    unfold parseCPUUsage
    rw [List.getElem?_eq_getElem (show 1 < (goFields line).length by omega),
      List.getElem?_eq_getElem (show 3 < (goFields line).length by omega)]
    rfl
  · intro h
    have h3 : (goFields line)[3]? = none := List.getElem?_eq_none (by omega)
    unfold parseCPUUsage
    rw [h3]
    cases (goFields line)[1]? <;> rfl

theorem parseCPUUsage_totality_witness :
    (parseCPUUsage cpuSampleLine).isSome = true ∧ parseCPUUsage "1.2 us," = none :=
  ⟨(parseCPUUsage_totality cpuSampleLine).1 (by decide),
   (parseCPUUsage_totality "1.2 us,").2 (by decide)⟩

/-- C10: in every poll cycle and for every node index, `main` binds the
service-journal reader with the fixed service name `ceremonyclient`,
independent of the configuration; its command reads the last 50 journal
lines filtered to exactly the three watched message keys; the tmux variant
is never the bound reader. -/
theorem main_uses_service_reader (cfg cfg2 : Config) (cycle i : Nat) :
    mainLogReader cfg cycle i = LogReader.service "ceremonyclient" ∧
    (∀ pane, mainLogReader cfg cycle i ≠ LogReader.tmux pane) ∧
    mainLogReader cfg cycle i = mainLogReader cfg2 cycle i ∧
    readLogsCmd (mainLogReader cfg cycle i) =
      "journalctl -u ceremonyclient.service -n 50 --no-hostname -o cat | grep -E \x27\"msg\":\"(" ++
        String.intercalate "|" watchedKeys ++ ")\"\x27" := by
  refine ⟨rfl, ?_, rfl, ?_⟩
  · intro pane h
    exact LogReader.noConfusion h
  · have h : readLogsCmd (LogReader.service "ceremonyclient") =
        "journalctl -u ceremonyclient.service -n 50 --no-hostname -o cat | grep -E \x27\"msg\":\"(" ++
          String.intercalate "|" watchedKeys ++ ")\"\x27" := by decide
    exact h
